import Mathlib

/-!
Shallow embedding of `src/server/server.js` (puzzle0128): the shared game
state, the WebSocket message handler (uploadImage / startGame / rotate /
resetGame), connection join/close, the leaderboard ranking, and the puzzle
generator.  JavaScript array semantics that matter for the `rotate` handler
(out-of-range element assignment creating holes and `NaN`, `Array.every`
skipping holes, `NaN === NaN` being false) are modelled explicitly.
-/

namespace Puzzle

/-- Value stored in a cell of a player's `puzzle` array.  `num n` is an
ordinary JavaScript number; `nan` models `NaN` (produced by
`undefined + 1`); `undefined` models a hole / `undefined` read. -/
inductive JsVal where
  | num (n : Nat)
  | nan
  | undefined
deriving DecidableEq

/-- Reading `l[i]`: out-of-range reads yield `undefined`. -/
def jsGet (l : List JsVal) (i : Nat) : JsVal :=
  l.getD i .undefined

/-- Assignment `l[i] = v` on a JavaScript array: in-range assignment
replaces the element; assignment past the end extends the array, filling
the gap with holes. -/
def jsWrite (l : List JsVal) (i : Nat) (v : JsVal) : List JsVal :=
  if i < l.length then l.set i v
  else l ++ List.replicate (i - l.length) .undefined ++ [v]

/-- The expression `(x + 1) % 4` in JavaScript: on a number it is ordinary
arithmetic (cells are in 0..3 so no float subtleties); on `undefined` or
`NaN` it yields `NaN`. -/
def jsAdd1Mod4 : JsVal → JsVal
  | .num n => .num ((n + 1) % 4)
  | _ => .nan

/-- JavaScript strict equality `===` restricted to the values that occur:
numbers compare by value, `NaN === x` is always false, and
`undefined === undefined` is true. -/
def jsStrictEq : JsVal → JsVal → Bool
  | .num n, .num m => n == m
  | .undefined, .undefined => true
  | _, _ => false

/-- `arraysEqual(a, b)` from server.js line 58:
`a.every((val, i) => val === b[i])`.  `Array.prototype.every` skips holes,
and in this program a stored `undefined` only ever arises as a hole. -/
def arraysEqual (a b : List JsVal) : Bool :=
  a.enum.all fun iv =>
    match iv.2 with
    | .undefined => true
    | v => jsStrictEq v (jsGet b iv.1)

/-- `gameState.correctRotation`: nine zeroes. -/
def correctRotation : List JsVal := List.replicate 9 (.num 0)

/-- Player status strings: 'joined', 'playing', 'finished'. -/
inductive PStatus where
  | joined
  | playing
  | finished
deriving DecidableEq

/-- Session status strings: 'waiting', 'ready', 'playing', 'finished'.
('ready' is listed in the source comment but never assigned.) -/
inductive GStatus where
  | waiting
  | ready
  | playing
  | finished
deriving DecidableEq

/-- One entry of `gameState.players`. -/
structure Player where
  id : Nat
  name : String
  status : PStatus
  time : Int
  steps : Nat
  startTime : Option Nat
  finishTime : Option Nat
  puzzle : List JsVal
deriving DecidableEq

/-- The shared mutable `gameState` object. -/
structure GameState where
  status : GStatus
  image : Option String
  imageUrl : Option String
  players : List (Nat × Player)
  gameStartTime : Option Nat
deriving DecidableEq

def initialGameState : GameState :=
  { status := .waiting, image := none, imageUrl := none, players := [],
    gameStartTime := none }

/-- `gameState.players.get(k)` on the insertion-ordered map. -/
def mapGet (m : List (Nat × Player)) (k : Nat) : Option Player :=
  match m with
  | [] => none
  | (k1, v) :: rest => if k1 = k then some v else mapGet rest k

/-- `gameState.players.set(k, v)`: an existing key keeps its position and
gets the new value; a new key is appended at the end (JS `Map` preserves
insertion order). -/
def mapSet (m : List (Nat × Player)) (k : Nat) (v : Player) : List (Nat × Player) :=
  match m with
  | [] => [(k, v)]
  | (k1, v1) :: rest => if k1 = k then (k, v) :: rest else (k1, v1) :: mapSet rest k v

/-- `gameState.players.delete(k)`. -/
def mapDelete (m : List (Nat × Player)) (k : Nat) : List (Nat × Player) :=
  match m with
  | [] => []
  | (k1, v1) :: rest => if k1 = k then rest else (k1, v1) :: mapDelete rest k

/-- The random draws consumed by a single call to `shufflePuzzle`: the nine
uniform draws `Math.floor(Math.random() * 4)` and the fallback position
`Math.floor(Math.random() * 9)`. -/
structure Draws where
  cells : Fin 9 → Fin 4
  fixPos : Fin 9

/-- `shufflePuzzle()` from server.js line 45, parameterised by its random
draws: nine values in 0..3; if all drew 0, the drawn fallback position is
set to 1. -/
def shufflePuzzle (d : Draws) : List JsVal :=
  let rotations : List Nat := List.ofFn fun i : Fin 9 => (d.cells i : Nat)
  let rotations := if rotations.all (· == 0) then rotations.set d.fixPos 1 else rotations
  rotations.map JsVal.num

/-- The per-player projection built by `broadcastLeaderboard`. -/
structure LBEntry where
  id : Nat
  name : String
  status : PStatus
  time : Int
  steps : Nat
  finishTime : Option Nat
deriving DecidableEq

def toEntry (p : Player) : LBEntry :=
  { id := p.id, name := p.name, status := p.status, time := p.time,
    steps := p.steps, finishTime := p.finishTime }

/-- The comparator passed to `.sort` in `broadcastLeaderboard`. -/
def jsSortCmp (a b : LBEntry) : Int :=
  if a.status = .finished ∧ b.status = .finished then a.time - b.time
  else if a.status = .finished then -1
  else if b.status = .finished then 1
  else (a.steps : Int) - (b.steps : Int)

/-- The non-strict order induced by the comparator.  ES2019
`Array.prototype.sort` is stable, so for a consistent comparator the result
is the unique stable sort by this order. -/
def lbLe (a b : LBEntry) : Bool := jsSortCmp a b ≤ 0

/-- The list broadcast by `broadcastLeaderboard`: project every registered
player, then stable-sort with the comparator. -/
def leaderboardEntries (players : List (Nat × Player)) : List LBEntry :=
  ((players.map Prod.snd).map toEntry).mergeSort lbLe

/-- Outbound messages, in emission order within one handler run.
`puzzleUpdateTo` and `initTo` are targeted sends; the rest are broadcasts. -/
inductive OutMsg where
  | imageUpdate (url : String)
  | gameStart (startTime : Nat)
  | puzzleUpdateTo (pid : Nat) (puzzle : List JsVal)
  | leaderboard (entries : List LBEntry)
  | playerFinished (pid : Nat) (name : String) (time : Int) (steps : Nat)
  | gameEnd
  | gameReset
  | initTo (pid : Nat) (name : String) (imageUrl : Option String)
      (puzzle : List JsVal) (gameStatus : GStatus)
deriving DecidableEq

/-- Parsed inbound messages, by `data.type`.  `startGame` carries the
random draws consumed for each player (indexed by iteration position);
`rotate` and `startGame` carry the `Date.now()` readings; `resetGame`
carries whether the filesystem deletion side effect succeeds.  `other` is
a parsed message whose type tag matches no `case` (the switch falls
through silently). -/
inductive Msg where
  | uploadImage (imageData : String) (filename : String)
  | startGame (now : Nat) (gen : Nat → Draws)
  | rotate (playerId : Nat) (tileIndex : Nat) (now : Nat)
  | resetGame (deleteOk : Bool)
  | other

/-- Result of processing one event: the new shared state, the messages
emitted before any throw, and whether an exception escaped the handler
(there is no try/catch in the handler, so a throw is uncaught). -/
structure StepResult where
  state : GameState
  outs : List OutMsg
  threw : Bool
deriving DecidableEq

/-- The body of `ws.on('message')` after a successful `JSON.parse`,
i.e. the `switch (data.type)`.  `sender` is the sending connection's
`ws.playerId` association; the switch never reads it. -/
def handleMsg (_sender : Option Nat) (st : GameState) (m : Msg) : StepResult :=
  match m with
  | .uploadImage imageData filename =>
    let url := "/uploads/" ++ filename
    ⟨{ st with image := some imageData, imageUrl := some url },
     [.imageUpdate url], false⟩
  | .startGame now gen =>
    match st.imageUrl with
    | none => ⟨st, [], false⟩
    | some _ =>
      let players1 := st.players.enum.map fun ip =>
        (ip.2.1, { ip.2.2 with
                   status := PStatus.playing, startTime := some now,
                   time := 0, steps := 0, finishTime := none,
                   puzzle := shufflePuzzle (gen ip.1) })
      ⟨{ st with status := .playing, gameStartTime := some now, players := players1 },
       [OutMsg.gameStart now]
         ++ players1.map (fun kp => OutMsg.puzzleUpdateTo kp.2.id kp.2.puzzle)
         ++ [OutMsg.leaderboard (leaderboardEntries players1)],
       false⟩
  | .rotate pid tile now =>
    match mapGet st.players pid with
    | none => ⟨st, [], false⟩
    | some p =>
      if p.status = .playing then
        let puzzle1 := jsWrite p.puzzle tile (jsAdd1Mod4 (jsGet p.puzzle tile))
        let steps1 := p.steps + 1
        if arraysEqual puzzle1 correctRotation then
          let time1 : Int := (now : Int) - ((p.startTime.getD 0 : Nat) : Int)
          let p2 : Player :=
            { p with puzzle := puzzle1, steps := steps1, status := .finished,
                     finishTime := some now, time := time1 }
          let players1 := mapSet st.players pid p2
          let allFin := (players1.map Prod.snd).all fun q => q.status == .finished
          ⟨{ st with players := players1,
                     status := if allFin then .finished else st.status },
           [OutMsg.playerFinished p.id p.name time1 steps1]
             ++ (if allFin then [OutMsg.gameEnd] else [])
             ++ [OutMsg.leaderboard (leaderboardEntries players1)],
           false⟩
        else
          let p1 : Player := { p with puzzle := puzzle1, steps := steps1 }
          let players1 := mapSet st.players pid p1
          ⟨{ st with players := players1 },
           [OutMsg.leaderboard (leaderboardEntries players1)], false⟩
      else ⟨st, [], false⟩
  | .resetGame deleteOk =>
    let st1 : GameState :=
      { status := .waiting, image := none, imageUrl := none, players := [],
        gameStartTime := none }
    if deleteOk then
      ⟨st1, [OutMsg.gameReset, OutMsg.leaderboard (leaderboardEntries [])], false⟩
    else
      ⟨st1, [], true⟩
  | .other => ⟨st, [], false⟩

/-- Connection-level events: a new WebSocket connection (with the role
decided from the request URL, the freshly drawn uuid / display name, and
the draws for the join-time `shufflePuzzle`), an inbound raw message
(`none` = `JSON.parse` throws), and a connection close. -/
inductive Ev where
  | connect (isPlayer : Bool) (pid : Nat) (pname : String) (d : Draws)
  | message (sender : Option Nat) (raw : Option Msg)
  | close (pid : Nat)

/-- One event processed by the server.  A connection from a player URL
registers the player and sends it an init message plus a leaderboard
broadcast; an unparseable message makes `JSON.parse` throw with no catch in
scope; a close removes the player (if registered) and re-broadcasts the
leaderboard. -/
def step (st : GameState) : Ev → StepResult
  | .connect isPlayer pid pname d =>
    if isPlayer then
      let pl : Player :=
        { id := pid, name := pname, status := .joined, time := 0, steps := 0,
          startTime := none, finishTime := none, puzzle := shufflePuzzle d }
      let players1 := mapSet st.players pid pl
      ⟨{ st with players := players1 },
       [OutMsg.initTo pid pname st.imageUrl pl.puzzle st.status,
        OutMsg.leaderboard (leaderboardEntries players1)], false⟩
    else ⟨st, [], false⟩
  | .message _sender none => ⟨st, [], true⟩
  | .message sender (some m) => handleMsg sender st m
  | .close pid =>
    match mapGet st.players pid with
    | some _ =>
      let players1 := mapDelete st.players pid
      ⟨{ st with players := players1 },
       [OutMsg.leaderboard (leaderboardEntries players1)], false⟩
    | none => ⟨st, [], false⟩

/-- The Node event loop: events are processed to completion in order; an
uncaught exception aborts the process, so no later event is processed. -/
def run (st : GameState) : List Ev → StepResult
  | [] => ⟨st, [], false⟩
  | e :: es =>
    let r := step st e
    if r.threw then r
    else
      let rest := run r.state es
      ⟨rest.state, r.outs ++ rest.outs, rest.threw⟩

/-- Recognises a number cell. -/
def isNum : JsVal → Bool
  | .num _ => true
  | _ => false

/-- Event classifier used to phrase the session-finished reasoning. -/
def isStartEv : Ev → Bool
  | .message _ (some (.startGame _ _)) => true
  | _ => false

/-- Rank of a player status in the Joined → Playing → Finished chain. -/
def statusRank : PStatus → Nat
  | .joined => 0
  | .playing => 1
  | .finished => 2

/-- Well-formedness of an event against a state: a fresh uuid never
collides with a registered player. -/
def evOk (st : GameState) : Ev → Prop
  | .connect true pid _ _ => mapGet st.players pid = none
  | _ => True

/-- Shorthand for the inbound rotate message event. -/
def rotEv (pid tile now : Nat) : Ev :=
  .message none (some (.rotate pid tile now))

section MapLemmas

theorem mapGet_mapSet_self (m : List (Nat × Player)) (k : Nat) (v : Player) :
    mapGet (mapSet m k v) k = some v := by
  induction m with
  | nil => simp [mapSet, mapGet]
  | cons hd tl ih =>
    obtain ⟨k1, v1⟩ := hd
    by_cases h : k1 = k
    · simp [mapSet, mapGet, h]
    · simp [mapSet, mapGet, h, ih]

theorem mapGet_mapSet_ne (m : List (Nat × Player)) {k k' : Nat} (v : Player)
    (h : k' ≠ k) : mapGet (mapSet m k v) k' = mapGet m k' := by
  have h' : k ≠ k' := Ne.symm h
  induction m with
  | nil => simp [mapSet, mapGet, h']
  | cons hd tl ih =>
    obtain ⟨k1, v1⟩ := hd
    by_cases h1 : k1 = k
    · subst h1
      simp [mapSet, mapGet, h']
    · simp [mapSet, mapGet, h1, ih]

theorem mem_of_mapGet {m : List (Nat × Player)} {k : Nat} {v : Player}
    (h : mapGet m k = some v) : v ∈ m.map Prod.snd := by
  induction m with
  | nil => simp [mapGet] at h
  | cons hd tl ih =>
    obtain ⟨k1, v1⟩ := hd
    by_cases h1 : k1 = k
    · simp only [mapGet, if_pos h1, Option.some.injEq] at h
      simp [h]
    · simp only [mapGet, if_neg h1] at h
      simp only [List.map_cons, List.mem_cons]
      exact Or.inr (ih h)

theorem snd_mem_mapSet {m : List (Nat × Player)} {k : Nat} {v q : Player}
    (h : q ∈ (mapSet m k v).map Prod.snd) : q ∈ m.map Prod.snd ∨ q = v := by
  induction m with
  | nil =>
    simp [mapSet] at h
    exact Or.inr h
  | cons hd tl ih =>
    obtain ⟨k1, v1⟩ := hd
    by_cases h1 : k1 = k
    · simp only [mapSet, if_pos h1, List.map_cons, List.mem_cons] at h
      rcases h with h | h
      · exact Or.inr h
      · exact Or.inl (by simp only [List.map_cons, List.mem_cons]; exact Or.inr h)
    · simp only [mapSet, if_neg h1, List.map_cons, List.mem_cons] at h
      rcases h with h | h
      · exact Or.inl (by simp [h])
      · rcases ih h with h2 | h2
        · exact Or.inl (by simp only [List.map_cons, List.mem_cons]; exact Or.inr h2)
        · exact Or.inr h2

theorem snd_mem_mapDelete {m : List (Nat × Player)} {k : Nat} {q : Player}
    (h : q ∈ (mapDelete m k).map Prod.snd) : q ∈ m.map Prod.snd := by
  induction m with
  | nil => simp [mapDelete] at h
  | cons hd tl ih =>
    obtain ⟨k1, v1⟩ := hd
    by_cases h1 : k1 = k
    · simp only [mapDelete, if_pos h1] at h
      simp only [List.map_cons, List.mem_cons]
      exact Or.inr h
    · simp only [mapDelete, if_neg h1, List.map_cons, List.mem_cons] at h
      simp only [List.map_cons, List.mem_cons]
      rcases h with h | h
      · exact Or.inl h
      · exact Or.inr (ih h)

theorem key_mem_of_mapGet {m : List (Nat × Player)} {k : Nat} {v : Player}
    (h : mapGet m k = some v) : k ∈ m.map Prod.fst := by
  induction m with
  | nil => simp [mapGet] at h
  | cons hd tl ih =>
    obtain ⟨k1, v1⟩ := hd
    by_cases h1 : k1 = k
    · simp [h1]
    · simp only [mapGet, if_neg h1] at h
      simp only [List.map_cons, List.mem_cons]
      exact Or.inr (ih h)

theorem mapGet_mapDelete {m : List (Nat × Player)} {k pid : Nat} {v : Player}
    (hnd : (m.map Prod.fst).Nodup)
    (h : mapGet (mapDelete m k) pid = some v) : mapGet m pid = some v := by
  induction m with
  | nil => simp [mapDelete, mapGet] at h
  | cons hd tl ih =>
    obtain ⟨k1, v1⟩ := hd
    simp only [List.map_cons, List.nodup_cons] at hnd
    by_cases h1 : k1 = k
    · subst h1
      simp only [mapDelete, if_pos rfl] at h
      by_cases h2 : k1 = pid
      · exact absurd (h2 ▸ key_mem_of_mapGet h) hnd.1
      · simp only [mapGet, if_neg h2]
        exact h
    · simp only [mapDelete, if_neg h1] at h
      by_cases h2 : k1 = pid
      · simp only [mapGet, if_pos h2] at h ⊢
        exact h
      · simp only [mapGet, if_neg h2] at h ⊢
        exact ih hnd.2 h

end MapLemmas

section ArrayLemmas

theorem jsWrite_length {l : List JsVal} {i : Nat} (v : JsVal) (h : i < l.length) :
    (jsWrite l i v).length = l.length := by
  simp [jsWrite, h]

theorem jsWrite_eq_set {l : List JsVal} {i : Nat} (v : JsVal) (h : i < l.length) :
    jsWrite l i v = l.set i v := by
  simp [jsWrite, h]

theorem jsGet_set_self {l : List JsVal} {i : Nat} (v : JsVal) (h : i < l.length) :
    jsGet (l.set i v) i = v := by
  simp [jsGet, List.getD_eq_getElem?_getD, List.getElem?_set_self h]

theorem jsGet_set_ne {l : List JsVal} {i j : Nat} (v : JsVal) (h : j ≠ i) :
    jsGet (l.set i v) j = jsGet l j := by
  simp [jsGet, List.getD_eq_getElem?_getD, List.getElem?_set_ne (Ne.symm h)]

theorem mem_jsWrite {l : List JsVal} {i : Nat} {v q : JsVal} (h : i < l.length)
    (hq : q ∈ jsWrite l i v) : q ∈ l ∨ q = v := by
  rw [jsWrite_eq_set v h] at hq
  exact List.mem_or_eq_of_mem_set hq

theorem jsGet_mem {l : List JsVal} {i : Nat} (h : i < l.length) : jsGet l i ∈ l := by
  simp only [jsGet, List.getD_eq_getElem?_getD, List.getElem?_eq_getElem h,
    Option.getD_some]
  exact List.getElem_mem h

/-- On a 9-cell all-number puzzle, the `arraysEqual` completion check holds
exactly when the puzzle is the all-zero target configuration. -/
theorem arraysEqual_correct_iff {l : List JsVal} (h9 : l.length = 9)
    (hnum : ∀ v ∈ l, isNum v = true) :
    arraysEqual l correctRotation = true ↔ l = correctRotation := by
  constructor
  · intro h
    apply List.ext_getElem (by simp [correctRotation, h9])
    intro i hi1 hi2
    have hi9 : i < 9 := by simpa [correctRotation] using hi2
    have hmem : (i, l[i]) ∈ l.enum := by
      rw [List.mem_enum_iff_getElem?]
      simp [List.getElem?_eq_getElem hi1]
    have hb := List.all_eq_true.mp h _ hmem
    have hnum_i := hnum l[i] (List.getElem_mem hi1)
    obtain ⟨n, hn⟩ : ∃ n, l[i] = JsVal.num n := by
      cases hl : l[i] with
      | num n => exact ⟨n, rfl⟩
      | nan => rw [hl] at hnum_i; simp [isNum] at hnum_i
      | undefined => rw [hl] at hnum_i; simp [isNum] at hnum_i
    rw [hn] at hb
    simp only [jsGet, correctRotation, List.getD_eq_getElem?_getD,
      List.getElem?_replicate, if_pos hi9, Option.getD_some] at hb
    have hn0 : n = 0 := by simpa [jsStrictEq] using hb
    rw [hn, hn0]
    show JsVal.num 0 = correctRotation[i]
    unfold correctRotation
    exact (List.getElem_replicate _ (by simpa [correctRotation] using hi2)).symm
  · intro h
    subst h
    decide

end ArrayLemmas

section LeaderboardLemmas

theorem lbLe_trans (a b c : LBEntry) (h1 : lbLe a b) (h2 : lbLe b c) : lbLe a c := by
  simp only [lbLe, decide_eq_true_eq] at *
  unfold jsSortCmp at *
  by_cases ha : a.status = PStatus.finished <;>
    by_cases hb : b.status = PStatus.finished <;>
    by_cases hc : c.status = PStatus.finished <;>
    simp only [ha, hb, hc, and_self, and_true, and_false, if_true, if_false,
      true_and, false_and, reduceIte] at * <;>
    omega

theorem lbLe_total (a b : LBEntry) : lbLe a b || lbLe b a := by
  simp only [lbLe, Bool.or_eq_true, decide_eq_true_eq]
  unfold jsSortCmp
  by_cases ha : a.status = PStatus.finished <;>
    by_cases hb : b.status = PStatus.finished <;>
    simp only [ha, hb, and_self, and_true, and_false, if_true, if_false,
      true_and, false_and, reduceIte] <;>
    omega

end LeaderboardLemmas

section ConcreteData

/-- Draws where cell 0 comes out 1 and the rest 0 (not all zero, so the
fallback is not taken): the generated puzzle is [1,0,0,0,0,0,0,0,0]. -/
def drawsOne : Draws := ⟨fun i => if i.val = 0 then 1 else 0, 0⟩

/-- Draws where every uniform draw is 0, with fallback position 4. -/
def drawsZero : Draws := ⟨fun _ => 0, 4⟩

end ConcreteData

/-- C9: every output of the puzzle generator is a sequence of 9 rotation
values in 0..3 and is never the all-zero target configuration; when the
uniform draw yields all zeros, the randomly drawn fallback position is
forced to value 1. -/
theorem shufflePuzzle_never_solved (d : Draws) :
    (shufflePuzzle d).length = 9 ∧
    (∀ v ∈ shufflePuzzle d, ∃ n, n ≤ 3 ∧ v = JsVal.num n) ∧
    shufflePuzzle d ≠ correctRotation ∧
    ((∀ i, d.cells i = 0) →
      shufflePuzzle d = ((List.replicate 9 (0 : Nat)).set d.fixPos 1).map JsVal.num) := by
  refine ⟨?_, ?_, ?_, ?_⟩
  · simp only [shufflePuzzle]
    split <;> simp
  · intro v hv
    simp only [shufflePuzzle, List.mem_map] at hv
    obtain ⟨n, hn, rfl⟩ := hv
    refine ⟨n, ?_, rfl⟩
    have hmem : n ∈ List.ofFn (fun i : Fin 9 => ((d.cells i : Nat))) ∨ n = 1 := by
      by_cases hall : (List.ofFn fun i : Fin 9 => ((d.cells i : Nat))).all (· == 0) = true
      · rw [if_pos hall] at hn
        exact List.mem_or_eq_of_mem_set hn
      · rw [if_neg hall] at hn
        exact Or.inl hn
    rcases hmem with hmem | rfl
    · rw [List.mem_ofFn] at hmem
      obtain ⟨i, rfl⟩ := hmem
      exact Nat.le_of_lt_succ (d.cells i).isLt
    · omega
  · intro heq
    have hcr : ∀ k, k < 9 → (correctRotation[k]? : Option JsVal) = some (JsVal.num 0) := by
      intro k hk
      unfold correctRotation
      rw [List.getElem?_replicate, if_pos hk]
    by_cases hall : (List.ofFn fun i : Fin 9 => ((d.cells i : Nat))).all (· == 0) = true
    · have hget := congrArg (fun l => l[(d.fixPos : Nat)]?) heq
      simp only [shufflePuzzle, if_pos hall, List.getElem?_map] at hget
      have hlt : (d.fixPos : Nat) <
          ((List.ofFn fun i : Fin 9 => ((d.cells i : Nat))).set d.fixPos 1).length := by
        simp [d.fixPos.isLt]
      rw [List.getElem?_eq_getElem hlt] at hget
      simp only [List.getElem_set_self, Option.map_some] at hget
      rw [hcr _ d.fixPos.isLt] at hget
      simp at hget
    · have hall2 := hall
      rw [List.all_eq_true] at hall2
      push_neg at hall2
      obtain ⟨x, hxm, hx0⟩ := hall2
      obtain ⟨j, hj, hjx⟩ := List.mem_iff_getElem.mp hxm
      have hget := congrArg (fun l => l[j]?) heq
      simp only [shufflePuzzle, if_neg hall, List.getElem?_map] at hget
      rw [List.getElem?_eq_getElem hj] at hget
      simp only [hjx, Option.map_some] at hget
      have hj9 : j < 9 := by simpa using hj
      rw [hcr _ hj9] at hget
      have hx : x = 0 := by
        have h2 : some (JsVal.num x) = some (JsVal.num 0) := by simpa using hget
        exact JsVal.num.inj (Option.some.inj h2)
      exact hx0 (by simp [hx])
  · intro hz
    have hrot : (List.ofFn fun i : Fin 9 => ((d.cells i : Nat))) = List.replicate 9 0 := by
      apply List.ext_getElem (by simp)
      intro i h1 h2
      simp [List.getElem_ofFn, hz]
    simp only [shufflePuzzle, hrot]
    rw [if_pos (by decide)]

/-- Witness: the generator applied to the all-zero draw with fallback
position 4 produces the forced-1 sequence, which is not the target. -/
theorem shufflePuzzle_never_solved_witness :
    shufflePuzzle drawsZero =
      ((List.replicate 9 (0 : Nat)).set (drawsZero.fixPos : Nat) 1).map JsVal.num ∧
    shufflePuzzle drawsZero ≠ correctRotation :=
  ⟨(shufflePuzzle_never_solved drawsZero).2.2.2 (fun _ => rfl),
   (shufflePuzzle_never_solved drawsZero).2.2.1⟩

section LeaderboardClaim

theorem lbLe_spec {a b : LBEntry} (hab : lbLe a b = true) :
    (a.status = .finished → b.status = .finished → a.time ≤ b.time) ∧
    (b.status = .finished → a.status = .finished) ∧
    (a.status ≠ .finished → b.status ≠ .finished → a.steps ≤ b.steps) := by
  simp only [lbLe, decide_eq_true_eq] at hab
  unfold jsSortCmp at hab
  by_cases ha : a.status = PStatus.finished <;>
    by_cases hb : b.status = PStatus.finished <;>
    simp only [ha, hb, and_self, and_true, and_false, true_and, false_and,
      reduceIte] at hab <;>
    refine ⟨?_, ?_, ?_⟩ <;> simp [ha, hb] <;> omega

theorem lbLe_of_tie {a b : LBEntry} (h : jsSortCmp a b = 0) : lbLe a b = true := by
  simp [lbLe, h]

/-- Example players from the spec: A finished in 120, B finished in 80,
C playing with 5 steps, D playing with 2 steps. -/
def playerA : Player :=
  ⟨101, "A", .finished, 120, 9, some 0, some 120, List.replicate 9 (.num 0)⟩

def playerB : Player :=
  ⟨102, "B", .finished, 80, 9, some 0, some 80, List.replicate 9 (.num 0)⟩

def playerC : Player :=
  ⟨103, "C", .playing, 0, 5, some 0, none, List.replicate 8 (.num 0) ++ [.num 1]⟩

def playerD : Player :=
  ⟨104, "D", .playing, 0, 2, some 0, none, List.replicate 8 (.num 0) ++ [.num 1]⟩

/-- C6: the broadcast leaderboard is a total ordering of the player
snapshot: it is a permutation of the projected registry; finished entries
ascend by elapsed time; every finished entry precedes every non-finished
entry; non-finished entries ascend by step count; entries tied under the
comparator keep their registry order; and the spec example A(finished,120),
B(finished,80), C(playing,5 steps), D(playing,2 steps) ranks as
[B, A, D, C]. -/
theorem leaderboard_ranking :
    (∀ players : List (Nat × Player),
      (leaderboardEntries players).Perm ((players.map Prod.snd).map toEntry) ∧
      (leaderboardEntries players).Pairwise (fun a b =>
        (a.status = .finished → b.status = .finished → a.time ≤ b.time) ∧
        (b.status = .finished → a.status = .finished) ∧
        (a.status ≠ .finished → b.status ≠ .finished → a.steps ≤ b.steps)) ∧
      (∀ a b, jsSortCmp a b = 0 →
        List.Sublist [a, b] ((players.map Prod.snd).map toEntry) →
        List.Sublist [a, b] (leaderboardEntries players))) ∧
    leaderboardEntries [(101, playerA), (102, playerB), (103, playerC), (104, playerD)] =
      [toEntry playerB, toEntry playerA, toEntry playerD, toEntry playerC] := by
  constructor
  · intro players
    refine ⟨List.mergeSort_perm _ _, ?_, ?_⟩
    · exact (List.sorted_mergeSort lbLe_trans lbLe_total
        ((players.map Prod.snd).map toEntry)).imp fun hab => lbLe_spec hab
    · intro a b htie hsub
      exact List.pair_sublist_mergeSort lbLe_trans lbLe_total (lbLe_of_tie htie) hsub
  · simp [leaderboardEntries, List.mergeSort, List.merge, playerA, playerB, playerC,
      playerD, toEntry, lbLe, jsSortCmp]

end LeaderboardClaim

/-- Witness: the stability clause of the ranking theorem applied to a
registry holding two tied Playing entries keeps them in registry order. -/
theorem leaderboard_ranking_witness :
    List.Sublist [toEntry playerC, toEntry playerC]
      (leaderboardEntries [(103, playerC), (106, playerC)]) :=
  (leaderboard_ranking.1 [(103, playerC), (106, playerC)]).2.2
    (toEntry playerC) (toEntry playerC) (by decide) (List.Sublist.refl _)

section Scenarios

/-- Events reaching a mid-round state: one player connects (drawing puzzle
[1,0,0,0,0,0,0,0,0]), an image is uploaded, and the round is started at
time 10 (regenerating the same puzzle shape). -/
def roundEvents : List Ev :=
  [ .connect true 1 "p1" drawsOne,
    .message none (some (.uploadImage "img" "pic.png")),
    .message none (some (.startGame 10 (fun _ => drawsOne))) ]

/-- The reachable state after `roundEvents`: session Playing, player 1
Playing with puzzle [1,0,0,0,0,0,0,0,0] and stepCount 0. -/
def roundState : GameState := (run initialGameState roundEvents).state

/-- Three accepted rotations on tile 0 (1 → 2 → 3 → 0) finish player 1's
puzzle at time 13. -/
def finishEvents : List Ev :=
  roundEvents ++ [rotEv 1 0 11, rotEv 1 0 12, rotEv 1 0 13]

/-- The reachable state after `finishEvents`: player 1 Finished. -/
def finishedState : GameState := (run initialGameState finishEvents).state

end Scenarios

/-- C1: code bug, witnessed at a reachable mid-round state.  A rotate
message for a registered Playing player whose tileIndex (9) does not
address one of the 9 puzzle cells is NOT a silent no-op: the handler has no
bounds check, so the step still increments stepCount and grows the puzzle
array to 10 entries, one of them NaN — violating the invariant that every
registered player's puzzle has exactly 9 elements in [0,3].  (Rotates with
unknown playerId or a non-Playing target ARE silent no-ops; see the
rotation theorems.) -/
theorem rotate_out_of_range_not_ignored :
    ((mapGet roundState.players 1).map Player.status = some .playing) ∧
    (step roundState (rotEv 1 9 11)).state ≠ roundState ∧
    ((mapGet (step roundState (rotEv 1 9 11)).state.players 1).map
      Player.steps = some 1) ∧
    ((mapGet (step roundState (rotEv 1 9 11)).state.players 1).map
      (fun p => p.puzzle.length) = some 10) ∧
    ((mapGet (step roundState (rotEv 1 9 11)).state.players 1).map
      (fun p => decide (JsVal.nan ∈ p.puzzle)) = some true) := by
  refine ⟨?_, ?_, ?_, ?_, ?_⟩ <;> decide

/-- C2: code bug.  `JSON.parse` runs with no try/catch, so an unparseable
payload throws out of the per-connection handler: the run stops with the
shared state unchanged and the next queued message — another connection's
rotate — is never processed, although processing that rotate alone would
have changed the state.  The claim that the failure is isolated to the
offending connection does not hold. -/
theorem malformed_message_kills_processing :
    run roundState [.message (some 2) none, rotEv 1 0 11] =
      ⟨roundState, [], true⟩ ∧
    (step roundState (rotEv 1 0 11)).state ≠ roundState := by
  exact ⟨rfl, by decide⟩

/-- C8: on a reset the session state is cleared back to the initial state
before the asset deletion runs, from every prior state; but the reset and
leaderboard broadcasts run only after the deletion, so a deletion failure
(which throws, uncaught) suppresses both broadcasts — the clearing
survives, the broadcasting does not. -/
theorem reset_clears_but_broadcast_blocked :
    (∀ (st : GameState) (sender : Option Nat),
      step st (.message sender (some (.resetGame true))) =
        ⟨initialGameState, [OutMsg.gameReset, OutMsg.leaderboard []], false⟩) ∧
    (∀ (st : GameState) (sender : Option Nat),
      step st (.message sender (some (.resetGame false))) =
        ⟨initialGameState, [], true⟩) := by
  constructor <;> intro st sender
  · simp [step, handleMsg, leaderboardEntries, initialGameState]
  · rfl

/-- C10: the switch on `data.type` never reads the sending connection's
`ws.playerId`, so the effect of any inbound message on the shared state is
independent of which connection sent it; concretely, a rotate sent from a
connection with no player association (an observer) mutates the player
named inside the message. -/
theorem handler_ignores_sender :
    (∀ (s1 s2 : Option Nat) (st : GameState) (m : Msg),
      handleMsg s1 st m = handleMsg s2 st m) ∧
    ((mapGet (step roundState (.message none (some (.rotate 1 0 11)))).state.players 1).map
      Player.steps = some 1) := by
  constructor
  · intro s1 s2 st m
    rfl
  · decide

/-- C7: a start-round request with no published asset is a complete silent
no-op; with an asset set it makes the session Playing with roundStartedAt
now, and resets every registered player — whatever their previous status,
Finished included — to Playing with stepCount 0, startedAt now, cleared
finishedAt, and a freshly generated puzzle. -/
theorem start_round_resets (st : GameState) (now : Nat) (gen : Nat → Draws)
    (sender : Option Nat) :
    (st.imageUrl = none →
      step st (.message sender (some (.startGame now gen))) = ⟨st, [], false⟩) ∧
    (∀ u, st.imageUrl = some u →
      (step st (.message sender (some (.startGame now gen)))).threw = false ∧
      (step st (.message sender (some (.startGame now gen)))).state.status = .playing ∧
      (step st (.message sender (some (.startGame now gen)))).state.gameStartTime
        = some now ∧
      (step st (.message sender (some (.startGame now gen)))).state.players.length
        = st.players.length ∧
      (∀ i kp, st.players[i]? = some kp →
        ∃ p', (step st (.message sender (some (.startGame now gen)))).state.players[i]?
            = some (kp.1, p') ∧
          p'.status = .playing ∧ p'.steps = 0 ∧ p'.startTime = some now ∧
          p'.finishTime = none ∧ p'.time = 0 ∧
          p'.puzzle = shufflePuzzle (gen i) ∧
          p'.id = kp.2.id ∧ p'.name = kp.2.name)) := by
  constructor
  · intro h
    simp [step, handleMsg, h]
  · intro u hu
    refine ⟨?_, ?_, ?_, ?_, ?_⟩
    · simp [step, handleMsg, hu]
    · simp [step, handleMsg, hu]
    · simp [step, handleMsg, hu]
    · simp [step, handleMsg, hu]
    · intro i kp hkp
      obtain ⟨hi, hkpe⟩ := List.getElem?_eq_some_iff.mp hkp
      refine ⟨{ kp.2 with
                status := PStatus.playing, startTime := some now, time := 0,
                steps := 0, finishTime := none, puzzle := shufflePuzzle (gen i) }, ?_⟩
      simp only [step, handleMsg, hu, List.getElem?_map]
      have henum : st.players.enum[i]? = some (i, kp) := by
        rw [List.getElem?_eq_getElem (by simpa [List.enum_length] using hi)]
        simp [List.getElem_enum, hkpe]
      rw [henum]
      simp

/-- The record held by the registry for player 1 in `finishedState`. -/
def finishedPlayer : Player :=
  ⟨1, "p1", .finished, 3, 3, some 10, some 13, List.replicate 9 (.num 0)⟩

/-- Witness: a start with no asset from the initial state is a no-op, and a
start on `finishedState` resets its Finished player to Playing with fresh
fields. -/
theorem start_round_resets_witness :
    step initialGameState (.message none (some (.startGame 20 (fun _ => drawsOne))))
      = ⟨initialGameState, [], false⟩ ∧
    (∃ p', (step finishedState
        (.message none (some (.startGame 20 (fun _ => drawsOne))))).state.players[0]?
        = some ((1, finishedPlayer).1, p') ∧
      p'.status = .playing ∧ p'.steps = 0 ∧ p'.startTime = some 20 ∧
      p'.finishTime = none ∧ p'.time = 0 ∧
      p'.puzzle = shufflePuzzle ((fun _ => drawsOne) 0) ∧
      p'.id = (1, finishedPlayer).2.id ∧ p'.name = (1, finishedPlayer).2.name) :=
  ⟨(start_round_resets initialGameState 20 (fun _ => drawsOne) none).1 rfl,
   ((start_round_resets finishedState 20 (fun _ => drawsOne) none).2
      "/uploads/pic.png" (by decide)).2.2.2.2 0 (1, finishedPlayer) (by decide)⟩

/-- C3 counterexample: player 1 reaches Finished, then a round start (not a
session reset — the player stays registered) moves the same player back to
Playing: the status chain regresses without the player being discarded. -/
theorem status_regresses_on_round_start :
    ((mapGet finishedState.players 1).map Player.status = some .finished) ∧
    ((mapGet (step finishedState
        (.message none (some (.startGame 20 (fun _ => drawsOne))))).state.players 1).map
      Player.status = some .playing) ∧
    isStartEv (.message none (some (.startGame 20 (fun _ => drawsOne)))) = true := by
  refine ⟨?_, ?_, rfl⟩ <;> decide

/-- Target state for the completion witness: player 1 one rotation away
from the all-zero configuration. -/
def nearWinPlayer : Player :=
  ⟨1, "p1", .playing, 0, 7, some 10, none, .num 3 :: List.replicate 8 (.num 0)⟩

/-- A session holding only `nearWinPlayer`. -/
def nearWinState : GameState :=
  ⟨.playing, some "img", some "/uploads/pic.png", [(1, nearWinPlayer)], some 10⟩

/-- C5: an accepted in-range rotation on a well-formed 9-cell puzzle leaves
the player Finished exactly when the resulting puzzle is the all-zero
target; on completion finishedAt is now, elapsedTime is now minus
startedAt, and a player-finished broadcast carrying id, name, elapsedTime,
stepCount is emitted; if afterwards every registered player is Finished the
session becomes Finished and exactly one finished broadcast is emitted in
that step, and a step cannot emit the finished broadcast again before a
round start: any step other than a round start from a state with no
Playing player emits no finished broadcast and creates no Playing player. -/
theorem rotate_completion :
    (∀ (st : GameState) (pid tile now : Nat) (p : Player),
      mapGet st.players pid = some p →
      p.status = .playing →
      tile < 9 →
      p.puzzle.length = 9 →
      (∀ v ∈ p.puzzle, isNum v = true) →
      ∃ p', mapGet (step st (rotEv pid tile now)).state.players pid = some p' ∧
        p'.puzzle.length = 9 ∧
        (p'.status = .finished ↔ p'.puzzle = correctRotation) ∧
        (p'.status = .finished →
          p'.finishTime = some now ∧
          p'.time = (now : Int) - ((p.startTime.getD 0 : Nat) : Int) ∧
          OutMsg.playerFinished p.id p.name p'.time p'.steps
            ∈ (step st (rotEv pid tile now)).outs) ∧
        ((∀ q ∈ (step st (rotEv pid tile now)).state.players.map Prod.snd,
            q.status = .finished) →
          (step st (rotEv pid tile now)).state.status = .finished ∧
          (step st (rotEv pid tile now)).outs.count OutMsg.gameEnd = 1) ∧
        ((∃ q ∈ (step st (rotEv pid tile now)).state.players.map Prod.snd,
            q.status ≠ .finished) →
          OutMsg.gameEnd ∉ (step st (rotEv pid tile now)).outs ∧
          (step st (rotEv pid tile now)).state.status = st.status)) ∧
    (∀ (st : GameState) (e : Ev),
      (∀ q ∈ st.players.map Prod.snd, q.status ≠ .playing) →
      isStartEv e = false →
      OutMsg.gameEnd ∉ (step st e).outs ∧
      (∀ q ∈ (step st e).state.players.map Prod.snd, q.status ≠ .playing)) := by
  constructor
  · intro st pid tile now p hp hplay htile hlen hnum
    have htile' : tile < p.puzzle.length := by omega
    have hw : jsWrite p.puzzle tile (jsAdd1Mod4 (jsGet p.puzzle tile))
        = p.puzzle.set tile (jsAdd1Mod4 (jsGet p.puzzle tile)) :=
      jsWrite_eq_set _ htile'
    have hlen1 : (jsWrite p.puzzle tile (jsAdd1Mod4 (jsGet p.puzzle tile))).length = 9 := by
      rw [hw]; simp [hlen]
    have hnum1 : ∀ v ∈ jsWrite p.puzzle tile (jsAdd1Mod4 (jsGet p.puzzle tile)),
        isNum v = true := by
      intro v hv
      rcases mem_jsWrite htile' hv with hv | hv
      · exact hnum v hv
      · subst hv
        have := hnum _ (jsGet_mem htile')
        cases hg : jsGet p.puzzle tile with
        | num n => simp [jsAdd1Mod4, hg, isNum]
        | nan => rw [hg] at this; simp [isNum] at this
        | undefined => rw [hg] at this; simp [isNum] at this
    simp only [step, rotEv, handleMsg, hp, hplay, if_true]
    by_cases heq : arraysEqual
        (jsWrite p.puzzle tile (jsAdd1Mod4 (jsGet p.puzzle tile))) correctRotation = true
    · simp only [if_pos heq]
      refine ⟨_, mapGet_mapSet_self _ _ _, ?_, ?_, ?_, ?_, ?_⟩
      · exact hlen1
      · constructor
        · intro _
          exact (arraysEqual_correct_iff hlen1 hnum1).mp heq
        · intro _
          trivial
      · intro _
        refine ⟨rfl, rfl, ?_⟩
        simp
      · intro hall
        have hfin : ((mapSet st.players pid
            { p with
              puzzle := jsWrite p.puzzle tile (jsAdd1Mod4 (jsGet p.puzzle tile)),
              steps := p.steps + 1, status := .finished, finishTime := some now,
              time := (now : Int) - ((p.startTime.getD 0 : Nat) : Int) }).map
              Prod.snd).all (fun q => q.status == PStatus.finished) = true := by
          rw [List.all_eq_true]
          intro q hq
          simp only [beq_iff_eq]
          exact hall q hq
        rw [hfin]
        constructor
        · simp
        · simp [List.count_cons, List.count_append]
      · intro hex
        obtain ⟨q, hq, hqne⟩ := hex
        have hfin : ((mapSet st.players pid
            { p with
              puzzle := jsWrite p.puzzle tile (jsAdd1Mod4 (jsGet p.puzzle tile)),
              steps := p.steps + 1, status := .finished, finishTime := some now,
              time := (now : Int) - ((p.startTime.getD 0 : Nat) : Int) }).map
              Prod.snd).all (fun q => q.status == PStatus.finished) = false := by
          rw [List.all_eq_false]
          exact ⟨q, hq, by simpa using hqne⟩
        rw [hfin]
        constructor
        · simp
        · simp
    · simp only [if_neg heq]
      refine ⟨_, mapGet_mapSet_self _ _ _, ?_, ?_, ?_, ?_, ?_⟩
      · exact hlen1
      · constructor
        · intro hfin
          exact absurd hfin (by simp [hplay])
        · intro hcr
          exact absurd ((arraysEqual_correct_iff hlen1 hnum1).mpr hcr) heq
      · intro hfin
        exact absurd hfin (by simp [hplay])
      · intro hall
        exfalso
        have h2 := hall _ (mem_of_mapGet (mapGet_mapSet_self st.players pid _))
        simp at h2
      · intro _
        constructor
        · simp
        · trivial
  · intro st e hnp hns
    cases e with
    | connect isPlayer cid cname d =>
      cases isPlayer with
      | false => exact ⟨by simp [step], hnp⟩
      | true =>
        constructor
        · simp [step]
        · intro q hq
          simp only [step] at hq
          rcases snd_mem_mapSet hq with hq | hq
          · exact hnp q hq
          · subst hq
            simp
    | message sender raw =>
      cases raw with
      | none => exact ⟨by simp [step], hnp⟩
      | some m =>
        cases m with
        | uploadImage d f => exact ⟨by simp [step, handleMsg], by simpa [step, handleMsg] using hnp⟩
        | startGame now gen => simp [isStartEv] at hns
        | rotate rpid tile now =>
          cases hq : mapGet st.players rpid with
          | none => exact ⟨by simp [step, handleMsg, hq], by simpa [step, handleMsg, hq] using hnp⟩
          | some q =>
            have hqs : q.status ≠ .playing := hnp q (mem_of_mapGet hq)
            exact ⟨by simp [step, handleMsg, hq, hqs],
              by simpa [step, handleMsg, hq, hqs] using hnp⟩
        | resetGame delOk =>
          cases delOk with
          | false => exact ⟨by simp [step, handleMsg], by simp [step, handleMsg]⟩
          | true => exact ⟨by simp [step, handleMsg], by simp [step, handleMsg]⟩
        | other => exact ⟨by simp [step, handleMsg], by simpa [step, handleMsg] using hnp⟩
    | close cid =>
      cases hc : mapGet st.players cid with
      | none => exact ⟨by simp [step, hc], by simpa [step, hc] using hnp⟩
      | some q =>
        constructor
        · simp [step, hc]
        · intro q2 hq2
          simp only [step, hc] at hq2
          exact hnp q2 (snd_mem_mapDelete hq2)

/-- Witness: in `nearWinState`, the rotation of tile 0 at time 25
completes the puzzle, and a further rotate after everyone is Finished
emits no second finished broadcast. -/
theorem rotate_completion_witness :
    (∃ p', mapGet (step nearWinState (rotEv 1 0 25)).state.players 1 = some p' ∧
      p'.puzzle.length = 9 ∧
      (p'.status = .finished ↔ p'.puzzle = correctRotation) ∧
      (p'.status = .finished →
        p'.finishTime = some 25 ∧
        p'.time = (25 : Int) - ((nearWinPlayer.startTime.getD 0 : Nat) : Int) ∧
        OutMsg.playerFinished nearWinPlayer.id nearWinPlayer.name p'.time p'.steps
          ∈ (step nearWinState (rotEv 1 0 25)).outs) ∧
      ((∀ q ∈ (step nearWinState (rotEv 1 0 25)).state.players.map Prod.snd,
          q.status = .finished) →
        (step nearWinState (rotEv 1 0 25)).state.status = .finished ∧
        (step nearWinState (rotEv 1 0 25)).outs.count OutMsg.gameEnd = 1) ∧
      ((∃ q ∈ (step nearWinState (rotEv 1 0 25)).state.players.map Prod.snd,
          q.status ≠ .finished) →
        OutMsg.gameEnd ∉ (step nearWinState (rotEv 1 0 25)).outs ∧
        (step nearWinState (rotEv 1 0 25)).state.status = nearWinState.status)) ∧
    (OutMsg.gameEnd ∉
        (step (step nearWinState (rotEv 1 0 25)).state (rotEv 1 0 99)).outs ∧
      (∀ q ∈ (step (step nearWinState (rotEv 1 0 25)).state
          (rotEv 1 0 99)).state.players.map Prod.snd, q.status ≠ .playing)) :=
  ⟨rotate_completion.1 nearWinState 1 0 25 nearWinPlayer (by decide) (by decide)
      (by decide) (by decide) (by decide),
   rotate_completion.2 (step nearWinState (rotEv 1 0 25)).state (rotEv 1 0 99)
      (by decide) rfl⟩

section RotateStepLemmas

/-- Recognises a rotation value as stored in a well-formed puzzle cell. -/
def isCell : JsVal → Bool
  | .num n => n < 4
  | _ => false

theorem isCell_num {v : JsVal} (h : isCell v = true) : ∃ b, b < 4 ∧ v = .num b := by
  cases v with
  | num n => exact ⟨n, by simpa [isCell] using h, rfl⟩
  | nan => simp [isCell] at h
  | undefined => simp [isCell] at h

/-- The acceptance test the rotate handler actually performs: the player
exists and has status 'playing' (the tile index is not examined). -/
def isAccepted (st : GameState) (pid : Nat) : Bool :=
  match mapGet st.players pid with
  | some p => p.status == .playing
  | none => false

/-- An accepted rotation updates exactly the looked-up player, writing the
incremented cell and stepCount (whether or not the rotation completes the
puzzle). -/
theorem rotate_accepted_puzzle (st : GameState) (pid tile now : Nat) (p : Player)
    (hp : mapGet st.players pid = some p) (hplay : p.status = .playing) :
    ∃ p', mapGet (step st (rotEv pid tile now)).state.players pid = some p' ∧
      p'.puzzle = jsWrite p.puzzle tile (jsAdd1Mod4 (jsGet p.puzzle tile)) ∧
      p'.steps = p.steps + 1 := by
  simp only [step, rotEv, handleMsg, hp, hplay, if_true]
  by_cases heq : arraysEqual
      (jsWrite p.puzzle tile (jsAdd1Mod4 (jsGet p.puzzle tile))) correctRotation = true
  · simp only [if_pos heq]
    exact ⟨_, mapGet_mapSet_self _ _ _, rfl, rfl⟩
  · simp only [if_neg heq]
    exact ⟨_, mapGet_mapSet_self _ _ _, rfl, rfl⟩

/-- A rotation whose player is unknown or not 'playing' leaves the state
untouched (and emits nothing). -/
theorem rotate_not_accepted (st : GameState) (pid tile now : Nat)
    (h : isAccepted st pid = false) :
    step st (rotEv pid tile now) = ⟨st, [], false⟩ := by
  unfold isAccepted at h
  cases hq : mapGet st.players pid with
  | none => simp [step, rotEv, handleMsg, hq]
  | some q =>
    rw [hq] at h
    have hne : ¬ q.status = .playing := by simpa using h
    simp [step, rotEv, handleMsg, hq, hne]

/-- A rotation never touches other players' registry entries. -/
theorem rotate_other (st : GameState) (qid tile now pid : Nat) (hne : pid ≠ qid) :
    mapGet (step st (rotEv qid tile now)).state.players pid = mapGet st.players pid := by
  cases hq : mapGet st.players qid with
  | none => simp [step, rotEv, handleMsg, hq]
  | some q =>
    by_cases hst : q.status = .playing
    · simp only [step, rotEv, handleMsg, hq, hst, if_true]
      by_cases heq : arraysEqual
          (jsWrite q.puzzle tile (jsAdd1Mod4 (jsGet q.puzzle tile))) correctRotation = true
      · simp only [if_pos heq]
        exact mapGet_mapSet_ne _ _ hne
      · simp only [if_neg heq]
        exact mapGet_mapSet_ne _ _ hne
    · simp [step, rotEv, handleMsg, hq, hst]

end RotateStepLemmas

section RotationHistory

/-- A whole history of rotate messages `(playerId, tileIndex, now)`
processed in order. -/
def applyRotates (st : GameState) : List (Nat × Nat × Nat) → GameState
  | [] => st
  | r :: rest => applyRotates (step st (rotEv r.1 r.2.1 r.2.2)).state rest

/-- Number of rotations of a history that the handler accepts for player
`pid` and that address cell `cell`, replaying the state evolution. -/
def acceptedOn (st : GameState) (pid cell : Nat) : List (Nat × Nat × Nat) → Nat
  | [] => 0
  | r :: rest =>
    (if r.1 = pid ∧ r.2.1 = cell ∧ isAccepted st r.1 = true then 1 else 0)
    + acceptedOn (step st (rotEv r.1 r.2.1 r.2.2)).state pid cell rest

/-- Numeric value of a cell. -/
def cellNum : JsVal → Nat
  | .num n => n
  | _ => 0

end RotationHistory

/-- C4 (amended): over any history of rotate messages with in-range tile
indices, each of a player's 9 cells remains a rotation value in {0,1,2,3}
equal to its initial value plus the number of accepted rotations addressed
to that cell, modulo 4; and a single accepted in-range rotation advances
the addressed cell by one step modulo 4 (0→1→2→3→0), leaves the other
cells unchanged, and increments stepCount by exactly 1. -/
theorem rotation_history_cells :
    (∀ (msgs : List (Nat × Nat × Nat)) (st : GameState) (pid : Nat) (p : Player),
      mapGet st.players pid = some p →
      p.puzzle.length = 9 →
      (∀ v ∈ p.puzzle, isCell v = true) →
      (∀ r ∈ msgs, r.2.1 < 9) →
      ∃ p', mapGet (applyRotates st msgs).players pid = some p' ∧
        p'.puzzle.length = 9 ∧
        (∀ i, i < 9 →
          jsGet p'.puzzle i
            = .num ((cellNum (jsGet p.puzzle i) + acceptedOn st pid i msgs) % 4) ∧
          cellNum (jsGet p'.puzzle i) < 4)) ∧
    (∀ (st : GameState) (pid tile now : Nat) (p : Player),
      mapGet st.players pid = some p →
      p.status = .playing →
      tile < 9 →
      p.puzzle.length = 9 →
      ∃ p', mapGet (step st (rotEv pid tile now)).state.players pid = some p' ∧
        p'.steps = p.steps + 1 ∧
        (∀ n, jsGet p.puzzle tile = .num n →
          jsGet p'.puzzle tile = .num ((n + 1) % 4)) ∧
        (∀ j, j ≠ tile → jsGet p'.puzzle j = jsGet p.puzzle j)) := by
  have single : ∀ (st : GameState) (pid tile now : Nat) (p : Player),
      mapGet st.players pid = some p →
      p.status = .playing →
      tile < 9 →
      p.puzzle.length = 9 →
      ∃ p', mapGet (step st (rotEv pid tile now)).state.players pid = some p' ∧
        p'.steps = p.steps + 1 ∧
        (∀ n, jsGet p.puzzle tile = .num n →
          jsGet p'.puzzle tile = .num ((n + 1) % 4)) ∧
        (∀ j, j ≠ tile → jsGet p'.puzzle j = jsGet p.puzzle j) := by
    intro st pid tile now p hp hplay htile hlen
    have htile' : tile < p.puzzle.length := by omega
    obtain ⟨p', hp', hpuz, hsteps⟩ := rotate_accepted_puzzle st pid tile now p hp hplay
    refine ⟨p', hp', hsteps, ?_, ?_⟩
    · intro n hn
      rw [hpuz, jsWrite_eq_set _ htile', jsGet_set_self _ htile', hn]
      rfl
    · intro j hj
      rw [hpuz, jsWrite_eq_set _ htile', jsGet_set_ne _ hj]
  refine ⟨?_, single⟩
  intro msgs
  induction msgs with
  | nil =>
    intro st pid p hp hlen hcell _
    refine ⟨p, by simpa [applyRotates] using hp, hlen, ?_⟩
    intro i hi
    have hci := hcell _ (jsGet_mem (show i < p.puzzle.length by omega))
    obtain ⟨b, hb, hbe⟩ := isCell_num hci
    rw [hbe]
    constructor
    · simp [acceptedOn, cellNum, Nat.mod_eq_of_lt hb]
    · simpa [cellNum] using hb
  | cons r rest ih =>
    intro st pid p hp hlen hcell hrange
    obtain ⟨qid, tile2, now2⟩ := r
    have htl2 : tile2 < 9 := hrange (qid, tile2, now2) (List.mem_cons_self _ _)
    have hrest : ∀ r ∈ rest, r.2.1 < 9 := fun r hr => hrange r (by simp [hr])
    by_cases hqid : qid = pid
    · subst hqid
      by_cases hacc : isAccepted st qid = true
      · have hplay : p.status = .playing := by
          unfold isAccepted at hacc
          rw [hp] at hacc
          simpa using hacc
        have htile' : tile2 < p.puzzle.length := by omega
        obtain ⟨p1, hp1, hpuz, hsteps⟩ :=
          rotate_accepted_puzzle st qid tile2 now2 p hp hplay
        have hlen1 : p1.puzzle.length = 9 := by
          rw [hpuz, jsWrite_eq_set _ htile']
          simpa using hlen
        have hcell1 : ∀ v ∈ p1.puzzle, isCell v = true := by
          intro v hv
          rw [hpuz] at hv
          rcases mem_jsWrite htile' hv with hv | hv
          · exact hcell v hv
          · subst hv
            obtain ⟨b, hb, hbe⟩ := isCell_num (hcell _ (jsGet_mem htile'))
            rw [hbe]
            simp [jsAdd1Mod4, isCell]
            omega
        obtain ⟨p', hp', hlen', hcells'⟩ := ih _ qid _ hp1 hlen1 hcell1 hrest
        refine ⟨p', by simpa [applyRotates] using hp', hlen', ?_⟩
        intro i hi
        have h2 := hcells' i hi
        refine ⟨?_, h2.2⟩
        rw [h2.1]
        obtain ⟨b, hb, hbe⟩ := isCell_num (hcell _ (jsGet_mem (show i < p.puzzle.length by omega)))
        by_cases hit : i = tile2
        · subst hit
          have hnew : jsGet p1.puzzle i = .num ((b + 1) % 4) := by
            rw [hpuz, jsWrite_eq_set _ htile', jsGet_set_self _ htile', hbe]
            rfl
          rw [hnew, hbe]
          have hcount : acceptedOn st qid i ((qid, i, now2) :: rest)
              = 1 + acceptedOn (step st (rotEv qid i now2)).state qid i rest := by
            simp [acceptedOn, hacc]
          rw [hcount]
          congr 1
          simp [cellNum]
          omega
        · have hold : jsGet p1.puzzle i = jsGet p.puzzle i := by
            rw [hpuz, jsWrite_eq_set _ htile', jsGet_set_ne _ hit]
          rw [hold]
          have hti : tile2 ≠ i := Ne.symm hit
          have hcount : acceptedOn st qid i ((qid, tile2, now2) :: rest)
              = acceptedOn (step st (rotEv qid tile2 now2)).state qid i rest := by
            simp [acceptedOn, hti]
          rw [hcount]
      · have hstep : step st (rotEv qid tile2 now2) = ⟨st, [], false⟩ :=
          rotate_not_accepted st qid tile2 now2 (by simpa using hacc)
        obtain ⟨p', hp', hlen', hcells'⟩ := ih st qid p hp hlen hcell hrest
        refine ⟨p', ?_, hlen', ?_⟩
        · show mapGet (applyRotates st ((qid, tile2, now2) :: rest)).players qid = some p'
          simp only [applyRotates, hstep]
          exact hp'
        · intro i hi
          have h2 := hcells' i hi
          refine ⟨?_, h2.2⟩
          rw [h2.1]
          have hcount : acceptedOn st qid i ((qid, tile2, now2) :: rest)
              = acceptedOn st qid i rest := by
            simp [acceptedOn, hacc, hstep]
          rw [hcount]
    · have hmg : mapGet (step st (rotEv qid tile2 now2)).state.players pid
          = mapGet st.players pid :=
        rotate_other st qid tile2 now2 pid (Ne.symm hqid)
      obtain ⟨p', hp', hlen', hcells'⟩ := ih (step st (rotEv qid tile2 now2)).state pid p
        (by rw [hmg]; exact hp) hlen hcell hrest
      refine ⟨p', by simpa [applyRotates] using hp', hlen', ?_⟩
      intro i hi
      have h2 := hcells' i hi
      refine ⟨?_, h2.2⟩
      rw [h2.1]
      have hcount : acceptedOn st pid i ((qid, tile2, now2) :: rest)
          = acceptedOn (step st (rotEv qid tile2 now2)).state pid i rest := by
        simp [acceptedOn, hqid]
      rw [hcount]

/-- C4 counterexample: in the reachable mid-round state, the history made
of the single rotate (player 1, tileIndex 9) is accepted by the handler —
stepCount rises to 1 — yet cell 9 of the puzzle afterwards holds NaN
(neither a value in {0,1,2,3} nor an advance by one step modulo 4), and
cell 0 holds 1 while the count of accepted rotations on cell 0 is 0, so a
cell does not equal the count of accepted rotations modulo 4. -/
theorem rotation_history_counterexample :
    isAccepted roundState 1 = true ∧
    ((mapGet (applyRotates roundState [(1, 9, 11)]).players 1).map Player.steps
      = some 1) ∧
    ((mapGet (applyRotates roundState [(1, 9, 11)]).players 1).map
      (fun p => jsGet p.puzzle 9) = some .nan) ∧
    ((mapGet (applyRotates roundState [(1, 9, 11)]).players 1).map
      (fun p => jsGet p.puzzle 0) = some (.num 1)) ∧
    acceptedOn roundState 1 0 [(1, 9, 11)] = 0 ∧
    acceptedOn roundState 1 9 [(1, 9, 11)] = 1 := by
  refine ⟨?_, ?_, ?_, ?_, ?_, ?_⟩ <;> decide

/-- The record held by the registry for player 1 in `roundState`. -/
def roundPlayer : Player :=
  ⟨1, "p1", .playing, 0, 0, some 10, none, .num 1 :: List.replicate 8 (.num 0)⟩

/-- Witness: the amended rotation-history theorem applied to the reachable
mid-round state and the in-range history [(1,0,11), (1,0,12)], plus the
single-step clause applied to the first rotation. -/
theorem rotation_history_cells_witness :
    (∃ p', mapGet (applyRotates roundState [(1, 0, 11), (1, 0, 12)]).players 1
        = some p' ∧
      p'.puzzle.length = 9 ∧
      (∀ i, i < 9 →
        jsGet p'.puzzle i = .num ((cellNum (jsGet roundPlayer.puzzle i)
          + acceptedOn roundState 1 i [(1, 0, 11), (1, 0, 12)]) % 4) ∧
        cellNum (jsGet p'.puzzle i) < 4)) ∧
    (∃ p', mapGet (step roundState (rotEv 1 0 11)).state.players 1 = some p' ∧
      p'.steps = roundPlayer.steps + 1 ∧
      (∀ n, jsGet roundPlayer.puzzle 0 = .num n →
        jsGet p'.puzzle 0 = .num ((n + 1) % 4)) ∧
      (∀ j, j ≠ 0 → jsGet p'.puzzle j = jsGet roundPlayer.puzzle j)) :=
  ⟨rotation_history_cells.1 [(1, 0, 11), (1, 0, 12)] roundState 1 roundPlayer
      (by decide) (by decide) (by decide) (by decide),
   rotation_history_cells.2 roundState 1 0 11 roundPlayer (by decide) (by decide)
      (by decide) (by decide)⟩

/-- C3 (amended): provided registry keys are unique and a join uses a fresh
uuid, no step moves a retained player's status backwards along
Joined → Playing → Finished, with a single exception: a round start resets
every registered player — previously Finished ones included — to Playing.
(A session reset wipes the registry, so no player is retained through it.) -/
theorem status_monotone_except_round_start
    (st : GameState) (e : Ev) (pid : Nat) (p p' : Player)
    (hnd : (st.players.map Prod.fst).Nodup)
    (hok : evOk st e)
    (hp : mapGet st.players pid = some p)
    (hp' : mapGet (step st e).state.players pid = some p') :
    statusRank p.status ≤ statusRank p'.status ∨
      (isStartEv e = true ∧ p'.status = .playing) := by
  cases e with
  | connect isPlayer cid cname d =>
    cases isPlayer with
    | false =>
      left
      simp only [step, Bool.false_eq_true, if_false] at hp'
      rw [hp] at hp'
      obtain rfl := Option.some.inj hp'
      exact Nat.le_refl _
    | true =>
      left
      have hfresh : mapGet st.players cid = none := hok
      simp only [step, if_true] at hp'
      by_cases hc : pid = cid
      · subst hc
        rw [hfresh] at hp
        cases hp
      · rw [mapGet_mapSet_ne _ _ hc] at hp'
        rw [hp] at hp'
        obtain rfl := Option.some.inj hp'
        exact Nat.le_refl _
  | message sender raw =>
    cases raw with
    | none =>
      left
      simp only [step] at hp'
      rw [hp] at hp'
      obtain rfl := Option.some.inj hp'
      exact Nat.le_refl _
    | some m =>
      cases m with
      | uploadImage dat fn =>
        left
        simp only [step, handleMsg] at hp'
        rw [hp] at hp'
        obtain rfl := Option.some.inj hp'
        exact Nat.le_refl _
      | startGame now2 gen =>
        cases him : st.imageUrl with
        | none =>
          left
          simp only [step, handleMsg, him] at hp'
          rw [hp] at hp'
          obtain rfl := Option.some.inj hp'
          exact Nat.le_refl _
        | some u =>
          right
          refine ⟨rfl, ?_⟩
          have hm := mem_of_mapGet hp'
          simp only [step, handleMsg, him, List.map_map, List.mem_map] at hm
          obtain ⟨x, hx, hxe⟩ := hm
          rw [← hxe]
          rfl
      | rotate rpid tile nw =>
        rw [show step st (Ev.message sender (some (Msg.rotate rpid tile nw)))
            = step st (rotEv rpid tile nw) from rfl] at hp'
        by_cases hacc : isAccepted st rpid = true
        · cases hq : mapGet st.players rpid with
          | none =>
            exfalso
            unfold isAccepted at hacc
            rw [hq] at hacc
            cases hacc
          | some q =>
            have hqs : q.status = .playing := by
              unfold isAccepted at hacc
              rw [hq] at hacc
              simpa using hacc
            by_cases hr : pid = rpid
            · subst hr
              left
              rw [hp] at hq
              obtain rfl := Option.some.inj hq
              simp only [step, rotEv, handleMsg, hp, hqs, if_true] at hp'
              by_cases heq : arraysEqual
                  (jsWrite p.puzzle tile (jsAdd1Mod4 (jsGet p.puzzle tile)))
                  correctRotation = true
              · rw [if_pos heq] at hp'
                rw [mapGet_mapSet_self] at hp'
                obtain rfl := Option.some.inj hp'
                simp [statusRank, hqs]
              · rw [if_neg heq] at hp'
                rw [mapGet_mapSet_self] at hp'
                obtain rfl := Option.some.inj hp'
                simp [statusRank, hqs]
            · left
              rw [rotate_other st rpid tile nw pid hr] at hp'
              rw [hp] at hp'
              obtain rfl := Option.some.inj hp'
              exact Nat.le_refl _
        · left
          rw [rotate_not_accepted st rpid tile nw (by simpa using hacc)] at hp'
          rw [hp] at hp'
          obtain rfl := Option.some.inj hp'
          exact Nat.le_refl _
      | resetGame delOk =>
        exfalso
        cases delOk with
        | false => simp [step, handleMsg, mapGet] at hp'
        | true => simp [step, handleMsg, mapGet] at hp'
      | other =>
        left
        simp only [step, handleMsg] at hp'
        rw [hp] at hp'
        obtain rfl := Option.some.inj hp'
        exact Nat.le_refl _
  | close cid =>
    left
    cases hc : mapGet st.players cid with
    | none =>
      simp only [step, hc] at hp'
      rw [hp] at hp'
      obtain rfl := Option.some.inj hp'
      exact Nat.le_refl _
    | some q =>
      simp only [step, hc] at hp'
      have h2 := mapGet_mapDelete hnd hp'
      rw [hp] at h2
      obtain rfl := Option.some.inj h2
      exact Nat.le_refl _

/-- Player 1's registry record after one accepted rotate on tile 0 in the
mid-round state. -/
def roundPlayerAfter : Player :=
  ⟨1, "p1", .playing, 0, 1, some 10, none, .num 2 :: List.replicate 8 (.num 0)⟩

/-- Witness: the monotonicity theorem applied to an accepted rotate on the
reachable mid-round state. -/
theorem status_monotone_except_round_start_witness :
    statusRank roundPlayer.status ≤ statusRank roundPlayerAfter.status ∨
      (isStartEv (rotEv 1 0 11) = true ∧ roundPlayerAfter.status = .playing) := by
  have h := status_monotone_except_round_start roundState (rotEv 1 0 11) 1
    roundPlayer roundPlayerAfter (by decide) True.intro (by decide) ?_
  · exact h
  · decide

end Puzzle
